import Mathlib

/-!
Verification of the champ-r Electron main process (`app/main.ts`).

The shallow embedding below translates the stateful handlers of `main.ts`
into pure state-passing functions:

* `onShowPopup` embeds the `onShowPopup` function (main.ts:206-236) together
  with the module-level mutable `lastChampion` and the `popupWindow`
  reference.  A JavaScript falsy `championId` (absent or `0`) is modelled as
  the natural number `0`.
* `onMatchedStartedOrTerminated` embeds the `LcuEvent.MatchedStartedOrTerminated`
  listener (main.ts:598-606).
* `prepareSourceData` embeds the `PrepareSourceData` ipc handler
  (main.ts:332-422): the awaited fallible steps before writing (metadata
  lookup, tarball download, `fse.ensureDir`, directory scan) are given by
  boolean outcomes in a `RunEnv`, together with the outcome of the
  un-awaited tar unpacking (which the handler never observes), and the
  per-build write outcomes by a predicate on tasks, mirroring `saveToFile`
  resolving with an `Error` value on failure (main.ts:388-393 checks
  `result instanceof Error`).
-/

/-- Payload of a `showPopup` / `SelectedChampion` event, `IPopupEventData` in
the source.  `championId = 0` models a falsy (absent or zero) champion id;
`noCache` models the cache-bypass flag. -/
structure IPopupEventData where
  championId : Nat
  noCache : Bool
deriving DecidableEq

/-- Mutable state touched by the popup handlers in `main.ts`: the module
variable `lastChampion` (main.ts:206), whether `popupWindow` is non-null, and
whether the popup window is currently visible. -/
structure WatcherState where
  lastChampion : Nat
  popupWindow : Bool
  popupVisible : Bool
deriving DecidableEq

/-- Embedding of `onShowPopup` (main.ts:208-236).  Returns the new state and
`some c` when the handler reaches the point of showing the popup and sending
`for-popup {championId: c}`, `none` when it returns early. -/
def onShowPopup (s : WatcherState) (data : IPopupEventData) :
    WatcherState × Option Nat :=
  let last := if data.noCache then 0 else s.lastChampion
  if data.championId = 0 ∨ last = data.championId then
    ({ s with lastChampion := last }, none)
  else
    ({ lastChampion := data.championId, popupWindow := true,
       popupVisible := true }, some data.championId)

/-- Embedding of the `LcuEvent.MatchedStartedOrTerminated` listener
(main.ts:598-606): only when `popupWindow` is non-null does it reset
`lastChampion` to `0` and hide the popup. -/
def onMatchedStartedOrTerminated (s : WatcherState) : WatcherState :=
  if s.popupWindow then
    { s with lastChampion := 0, popupVisible := false }
  else s

/-- An input signal delivered to the popup-related listeners registered in
main.ts:595-606. -/
inductive LcuInput where
  | champSelect (data : IPopupEventData)
  | matchEnd
deriving DecidableEq

/-- One step of the listener dispatch: `SelectedChampion` events run
`onShowPopup`, `MatchedStartedOrTerminated` events run the reset listener
(which emits no popup). -/
def stepWatcher (s : WatcherState) : LcuInput → WatcherState × Option Nat
  | .champSelect data => onShowPopup s data
  | .matchEnd => (onMatchedStartedOrTerminated s, none)

/-- Processing of a sequence of signals in arrival order, collecting the
popup emissions. -/
def runWatcher (s : WatcherState) : List LcuInput → WatcherState × List Nat
  | [] => (s, [])
  | i :: rest =>
    let step := stepWatcher s i
    let tail := runWatcher step.1 rest
    (tail.1, step.2.toList ++ tail.2)

/-- State at startup: `lastChampion = 0` (main.ts:206) and the popup window
already created (main.ts:593), not yet shown. -/
def initWatcherState : WatcherState := ⟨0, true, false⟩

/-- Modelled from the spec: the single-in-flight guard of
`LcuWatcher.applyRunePage` lives in `app/utils/lcu.ts`, which is not part of
the sources; its behaviour is taken from spec §4.3.  The state holds the
request currently in flight, if any. -/
structure RuneApplierState where
  pendingRune : Option Nat
deriving DecidableEq

/-- Outcome of issuing an apply call. -/
inductive ApplyOutcome where
  | busy
  | accepted
deriving DecidableEq

/-- Modelled from the spec: issuing an apply call (spec §4.3).  While a call
is pending, a new call is rejected immediately with `busy` and the pending
call is left untouched; otherwise the call is accepted and becomes the
pending one. -/
def applyRunePage (s : RuneApplierState) (req : Nat) :
    RuneApplierState × ApplyOutcome :=
  match s.pendingRune with
  | some r => (⟨some r⟩, .busy)
  | none => (⟨some req⟩, .accepted)

/-- Modelled from the spec: the pending call settling (spec §4.3), after
which the applier accepts new calls. -/
def settleRunePage (_s : RuneApplierState) : RuneApplierState := ⟨none⟩

/-- Embedding of JavaScript `String.prototype.toUpperCase` as used on the
ASCII source name in `source.toUpperCase()` (main.ts:386). -/
def toUpperCase (s : String) : String := ⟨s.data.map Char.toUpper⟩

/-- One parsed item build block (`k` in the loop of main.ts:380); its payload
is kept opaque as a string. -/
structure ItemBuild where
  content : String
deriving DecidableEq

/-- One parsed champion description file (`i` in main.ts:377-405), with the
source fields `alias` (here `champAlias`, since `alias` is reserved),
`position` (optional) and `itemBuilds`. -/
structure ChampFile where
  champAlias : String
  position : Option String
  itemBuilds : List ItemBuild
deriving DecidableEq

/-- Embedding of the position segment `position ? `${position} - ` : ``` of
main.ts:379. -/
def pStr (position : Option String) : String :=
  match position with
  | some p => p ++ " - "
  | none => ""

/-- Embedding of the filename template of main.ts:386,
`[${source.toUpperCase()}] ${pStr}${champion}-${idx + 1}`, with `idx` the
0-based position inside `itemBuilds`. -/
def fileName (source : String) (position : Option String) (champion : String)
    (idx : Nat) : String :=
  "[" ++ toUpperCase source ++ "] " ++ pStr position ++ champion ++ "-"
    ++ toString (idx + 1)

/-- One write task queued by the loop of main.ts:380-404: the spread file
object `{...k, champion, position, fileName}` handed to `saveToFile`. -/
structure BuildTask where
  champion : String
  position : Option String
  fileName : String
  content : String
deriving DecidableEq

/-- Tasks derived from one champion file by `itemBuilds.forEach((k, idx) => ...)`
(main.ts:380-404). -/
def tasksOfChampFile (source : String) (i : ChampFile) : List BuildTask :=
  i.itemBuilds.enum.map fun p =>
    ⟨i.champAlias, i.position, fileName source i.position i.champAlias p.1,
     p.2.content⟩

/-- Tasks derived from the whole scanned directory, the nested
`files.forEach(arr => arr.forEach(i => ...))` of main.ts:376-406. -/
def tasksOfRun (source : String) (files : List (List ChampFile)) :
    List BuildTask :=
  files.flatMap fun arr => arr.flatMap (tasksOfChampFile source)

/-- Outcome of one `saveToFile` call (spec §3 WriteResult); main.ts:390
distinguishes the two cases by `result instanceof Error`. -/
inductive WriteResult where
  | written (path : String)
  | failed
deriving DecidableEq

/-- One progress message sent through `updateStatusForMainWindowWebView`
(main.ts:238-243); the constructors mirror the messages of main.ts:341-420.
`finished` carries `finished: true` (main.ts:408-412) and
`somethingWentWrong` carries `error: true` (main.ts:415-420). -/
inductive ProgressMsg where
  | fetchedMetadata
  | downloadingTarball
  | downloadedTarball
  | extractedData
  | appliedBuild (champion : String) (position : Option String)
  | finished
  | somethingWentWrong
deriving DecidableEq

/-- A message that terminates a run: the `finished: true` message or the
`error: true` message. -/
def isTerminalMsg : ProgressMsg → Bool
  | .finished => true
  | .somethingWentWrong => true
  | _ => false

/-- Outcomes of the fallible steps of one `PrepareSourceData` run
(main.ts:332-422): `metadataOk` for the awaited registry lookup
(main.ts:338), `downloadOk` for the awaited tarball download (main.ts:350),
`ensureDirOk` for the awaited `fse.ensureDir` (main.ts:359), `tarOk` for the
tar unpacking itself, `scanOk` for the awaited
`updateDirStats`/`getAllFileContent` (main.ts:373-374), `files` for whatever
the scan finds, and `writeOk` for the outcome of each `saveToFile` call.

The tar pipe `s.pipe(tar.x({strip: 1, cwd}))` (main.ts:361-366) is never
awaited and has no error handler, so `tarOk` cannot influence the handler's
control flow: a tar failure neither throws into the `catch` block nor stops
the scan.  Its only effect is on the directory contents, hence on `files` —
which, the working directory `.npm/${source}/` being never cleaned, can hold
partial or stale champion files from an earlier run. -/
structure RunEnv where
  metadataOk : Bool
  downloadOk : Bool
  ensureDirOk : Bool
  tarOk : Bool
  scanOk : Bool
  files : List (List ChampFile)
  writeOk : BuildTask → Bool

/-- WriteResults of the write fan-out, one per task in order (main.ts:388-403);
`saveToFile` resolves with an `Error` value on failure, so a failing write
yields `failed` without aborting the others. -/
def runWrites (env : RunEnv) (tasks : List BuildTask) : List WriteResult :=
  tasks.map fun t => if env.writeOk t then .written t.fileName else .failed

/-- Embedding of the `PrepareSourceData` handler body (main.ts:332-422).
Returns the ordered progress messages and the `(fileName, content)` pairs
actually written.  A failure of an awaited step throws into the `catch`
block, which sends the single `error: true` message (main.ts:413-421); the
un-awaited tar pipe (`tarOk`) is deliberately absent from every branch
condition, since its failure is unhandled and changes nothing in the
handler's control flow.  After a successful scan the write fan-out runs to
completion and the `finished: true` message is sent unconditionally
(main.ts:407-412).  Per-write success messages (main.ts:396-401) are sent
only for successful writes. -/
def prepareSourceData (source : String) (env : RunEnv) :
    List ProgressMsg × List (String × String) :=
  if env.metadataOk = false then
    ([.somethingWentWrong], [])
  else if env.downloadOk = false then
    ([.fetchedMetadata, .downloadingTarball, .somethingWentWrong], [])
  else if env.ensureDirOk = false then
    ([.fetchedMetadata, .downloadingTarball, .downloadedTarball,
      .somethingWentWrong], [])
  else if env.scanOk = false then
    ([.fetchedMetadata, .downloadingTarball, .downloadedTarball,
      .extractedData, .somethingWentWrong], [])
  else
    let tasks := tasksOfRun source env.files
    let okTasks := tasks.filter env.writeOk
    ([.fetchedMetadata, .downloadingTarball, .downloadedTarball,
      .extractedData]
       ++ okTasks.map (fun t => ProgressMsg.appliedBuild t.champion t.position)
       ++ [.finished],
     okTasks.map fun t => (t.fileName, t.content))

/-- Modelled from the spec: `saveToFile` (in `app/utils/file.ts`, not part of
the sources) writes each build under its derived filename, overwriting any
previous file of the same name (spec §4.7).  The filesystem is a partial map
from path to content and a run's writes are applied in order. -/
def applyWrites (fs : String → Option String) (ws : List (String × String)) :
    String → Option String :=
  ws.foldl (fun acc w => fun p => if p = w.1 then some w.2 else acc p) fs

/-- Numeric value of an ASCII decimal digit character. -/
def decDigit (c : Char) : Nat := c.toNat - 48

/-- Value of a most-significant-first decimal digit string. -/
def decNum (l : List Char) : Nat := l.foldl (fun a c => a * 10 + decDigit c) 0

/-- Sample parsed champion file used to instantiate theorems with hypotheses:
champion "Ahri", no position, two item builds. -/
def sampleChampFile : ChampFile := ⟨"Ahri", none, [⟨"b1"⟩, ⟨"b2"⟩]⟩

/-- Sample fully successful run over `sampleChampFile`. -/
def sampleEnv : RunEnv :=
  ⟨true, true, true, true, true, [[sampleChampFile]], fun _ => true⟩

/-- Sample run in which every stage succeeds but every write fails. -/
def envAllWritesFail : RunEnv :=
  ⟨true, true, true, true, true, [[sampleChampFile]], fun _ => false⟩

/-- Sample run in which the registry metadata lookup fails (HTTP 404). -/
def envMetadata404 : RunEnv := ⟨false, true, true, true, true, [], fun _ => true⟩

/-- Sample run in which the un-awaited tar extraction fails (`tarOk = false`)
while every awaited step succeeds; the scan still finds champion files — the
stale contents of the never-cleaned working directory — and all writes
succeed. -/
def envTarFail : RunEnv :=
  ⟨true, true, true, false, true, [[sampleChampFile]], fun _ => true⟩

lemma digitChar_ne_hyphen {m : Nat} (h : m < 10) : Nat.digitChar m ≠ '-' := by
  interval_cases m <;> decide

lemma decDigit_digitChar {m : Nat} (h : m < 10) :
    decDigit (Nat.digitChar m) = m := by
  interval_cases m <;> decide

lemma toDigitsCore_zero_fuel (n : Nat) (acc : List Char) :
    Nat.toDigitsCore 10 0 n acc = acc := rfl

lemma toDigitsCore_succ_fuel (fuel n : Nat) (acc : List Char) :
    Nat.toDigitsCore 10 (fuel + 1) n acc =
      if n / 10 = 0 then Nat.digitChar (n % 10) :: acc
      else Nat.toDigitsCore 10 fuel (n / 10) (Nat.digitChar (n % 10) :: acc) :=
  rfl

lemma toDigitsCore_ne_hyphen (fuel : Nat) :
    ∀ (n : Nat) (acc : List Char), (∀ c ∈ acc, c ≠ '-') →
      ∀ c ∈ Nat.toDigitsCore 10 fuel n acc, c ≠ '-' := by
  induction fuel with
  | zero =>
    intro n acc hacc c hc
    rw [toDigitsCore_zero_fuel] at hc
    exact hacc c hc
  | succ fuel ih =>
    intro n acc hacc c hc
    rw [toDigitsCore_succ_fuel] at hc
    have hcons : ∀ x ∈ Nat.digitChar (n % 10) :: acc, x ≠ '-' := by
      intro x hx
      rcases List.mem_cons.mp hx with h1 | h1
      · subst h1
        exact digitChar_ne_hyphen (Nat.mod_lt _ (by norm_num))
      · exact hacc x h1
    by_cases h0 : n / 10 = 0
    · rw [if_pos h0] at hc
      exact hcons c hc
    · rw [if_neg h0] at hc
      exact ih (n / 10) _ hcons c hc

lemma toDigitsCore_append (fuel : Nat) :
    ∀ (n : Nat) (acc : List Char),
      Nat.toDigitsCore 10 fuel n acc = Nat.toDigitsCore 10 fuel n [] ++ acc := by
  induction fuel with
  | zero => intro n acc; simp [toDigitsCore_zero_fuel]
  | succ fuel ih =>
    intro n acc
    rw [toDigitsCore_succ_fuel, toDigitsCore_succ_fuel]
    by_cases h0 : n / 10 = 0
    · simp [if_pos h0]
    · rw [if_neg h0, if_neg h0, ih (n / 10) (Nat.digitChar (n % 10) :: acc),
        ih (n / 10) [Nat.digitChar (n % 10)]]
      simp

lemma decNum_concat (l : List Char) (c : Char) :
    decNum (l ++ [c]) = decNum l * 10 + decDigit c := by
  simp [decNum, List.foldl_append]

lemma decNum_toDigitsCore (fuel : Nat) :
    ∀ n : Nat, n < fuel → decNum (Nat.toDigitsCore 10 fuel n []) = n := by
  induction fuel with
  | zero => intro n h; omega
  | succ fuel ih =>
    intro n h
    rw [toDigitsCore_succ_fuel]
    by_cases h0 : n / 10 = 0
    · rw [if_pos h0]
      have h10 : n < 10 := by omega
      have : decNum [Nat.digitChar (n % 10)] = decDigit (Nat.digitChar (n % 10)) := by
        simp [decNum]
      rw [this, decDigit_digitChar (Nat.mod_lt _ (by norm_num))]
      omega
    · rw [if_neg h0, toDigitsCore_append, decNum_concat]
      have hlt : n / 10 < fuel := by omega
      rw [ih _ hlt, decDigit_digitChar (Nat.mod_lt _ (by norm_num))]
      omega

lemma repr_data (n : Nat) :
    (Nat.repr n).data = Nat.toDigitsCore 10 (n + 1) n [] := rfl

lemma repr_ne_hyphen (n : Nat) : ∀ c ∈ (Nat.repr n).data, c ≠ '-' := by
  rw [repr_data]
  exact toDigitsCore_ne_hyphen (n + 1) n [] (by simp)

lemma repr_injective {n1 n2 : Nat} (h : Nat.repr n1 = Nat.repr n2) :
    n1 = n2 := by
  have hd : Nat.toDigitsCore 10 (n1 + 1) n1 [] = Nat.toDigitsCore 10 (n2 + 1) n2 [] := by
    rw [← repr_data, ← repr_data, h]
  have e1 := decNum_toDigitsCore (n1 + 1) n1 (by omega)
  have e2 := decNum_toDigitsCore (n2 + 1) n2 (by omega)
  rw [← e1, ← e2, hd]

lemma sep_inj_left (u1 : List Char) :
    ∀ (u2 v1 v2 : List Char), (∀ c ∈ u1, c ≠ '-') → (∀ c ∈ u2, c ≠ '-') →
      u1 ++ '-' :: v1 = u2 ++ '-' :: v2 → u1 = u2 ∧ v1 = v2 := by
  induction u1 with
  | nil =>
    intro u2 v1 v2 h1 h2 heq
    cases u2 with
    | nil =>
      simp only [List.nil_append, List.cons.injEq] at heq
      exact ⟨rfl, heq.2⟩
    | cons d u2 =>
      simp only [List.nil_append, List.cons_append, List.cons.injEq] at heq
      exact absurd heq.1.symm (h2 d (by simp))
  | cons c u1 ih =>
    intro u2 v1 v2 h1 h2 heq
    cases u2 with
    | nil =>
      simp only [List.cons_append, List.nil_append, List.cons.injEq] at heq
      exact absurd heq.1 (h1 c (by simp))
    | cons d u2 =>
      simp only [List.cons_append, List.cons.injEq] at heq
      obtain ⟨hcd, heq2⟩ := heq
      obtain ⟨hu, hv⟩ := ih u2 v1 v2
        (fun x hx => h1 x (List.mem_cons_of_mem _ hx))
        (fun x hx => h2 x (List.mem_cons_of_mem _ hx)) heq2
      exact ⟨by rw [hcd, hu], hv⟩

lemma sep_inj_right (a1 a2 t1 t2 : List Char)
    (h1 : ∀ c ∈ t1, c ≠ '-') (h2 : ∀ c ∈ t2, c ≠ '-')
    (heq : a1 ++ '-' :: t1 = a2 ++ '-' :: t2) : a1 = a2 ∧ t1 = t2 := by
  have hrev : t1.reverse ++ '-' :: a1.reverse = t2.reverse ++ '-' :: a2.reverse := by
    have hr := congrArg List.reverse heq
    simpa [List.reverse_append, List.append_assoc] using hr
  obtain ⟨ht, ha⟩ := sep_inj_left t1.reverse t2.reverse a1.reverse a2.reverse
    (fun c hc => h1 c (List.mem_reverse.mp hc))
    (fun c hc => h2 c (List.mem_reverse.mp hc)) hrev
  exact ⟨List.reverse_injective ha, List.reverse_injective ht⟩

lemma toString_nat_eq_repr (n : Nat) : (toString n : String) = Nat.repr n := rfl

lemma fileName_data (source : String) (pos : Option String) (champion : String)
    (idx : Nat) :
    (fileName source pos champion idx).data =
      ("[" ++ toUpperCase source ++ "] " ++ pStr pos).data ++
        (champion.data ++ '-' :: (Nat.repr (idx + 1)).data) := by
  simp only [fileName, toString_nat_eq_repr, String.data_append,
    List.append_assoc]
  rfl

lemma applyWrites_nil (fs : String → Option String) : applyWrites fs [] = fs :=
  rfl

lemma applyWrites_cons (fs : String → Option String) (w : String × String)
    (ws : List (String × String)) :
    applyWrites fs (w :: ws) =
      applyWrites (fun p => if p = w.1 then some w.2 else fs p) ws := rfl

lemma applyWrites_lookup (ws : List (String × String)) :
    ∀ (fs : String → Option String) (p : String),
      applyWrites fs ws p =
        match ws.reverse.find? (fun w => w.1 == p) with
        | some w => some w.2
        | none => fs p := by
  induction ws with
  | nil => intro fs p; rfl
  | cons w ws ih =>
    intro fs p
    rw [applyWrites_cons, ih]
    rw [List.reverse_cons, List.find?_append]
    cases hfind : ws.reverse.find? (fun x => x.1 == p) with
    | some w2 => simp [Option.or]
    | none =>
      simp only [Option.or]
      by_cases hp : w.1 = p
      · simp [List.find?, hp]
      · have hp2 : ¬p = w.1 := fun hx => hp hx.symm
        have hb : (w.1 == p) = false := by simp [hp]
        simp [List.find?, hp2, hb]

lemma applyWrites_idem (fs : String → Option String)
    (ws : List (String × String)) :
    applyWrites (applyWrites fs ws) ws = applyWrites fs ws := by
  funext p
  rw [applyWrites_lookup, applyWrites_lookup]
  cases hfind : ws.reverse.find? (fun w => w.1 == p) with
  | some w => simp
  | none => simp [applyWrites_lookup, hfind]

lemma fileName_inj_same_pos {source : String} {pos : Option String}
    {a1 a2 : String} {i1 i2 : Nat}
    (h : fileName source pos a1 i1 = fileName source pos a2 i2) :
    a1 = a2 ∧ i1 = i2 := by
  have hd := congrArg String.data h
  rw [fileName_data, fileName_data] at hd
  have hd2 := List.append_cancel_left hd
  obtain ⟨ha, ht⟩ := sep_inj_right a1.data a2.data _ _
    (repr_ne_hyphen _) (repr_ne_hyphen _) hd2
  refine ⟨String.ext ha, ?_⟩
  have hrepr : Nat.repr (i1 + 1) = Nat.repr (i2 + 1) := String.ext ht
  have := repr_injective hrepr
  omega


lemma onShowPopup_eq (s : WatcherState) (d : IPopupEventData) :
    onShowPopup s d =
      if d.championId = 0 ∨ (if d.noCache then 0 else s.lastChampion) = d.championId then
        ({ s with lastChampion := if d.noCache then 0 else s.lastChampion }, none)
      else
        ({ lastChampion := d.championId, popupWindow := true,
           popupVisible := true }, some d.championId) := rfl

lemma onShowPopup_false_noCache (s : WatcherState) (c : Nat) :
    onShowPopup s ⟨c, false⟩ =
      if c = 0 ∨ s.lastChampion = c then (s, none)
      else (⟨c, true, true⟩, some c) := by
  by_cases h : c = 0 ∨ s.lastChampion = c
  · rw [if_pos h]
    show (if c = 0 ∨ s.lastChampion = c then _ else _) = _
    rw [if_pos h]
    rfl
  · rw [if_neg h]
    show (if c = 0 ∨ s.lastChampion = c then _ else _) = _
    rw [if_neg h]

lemma onShowPopup_true_noCache (s : WatcherState) (c : Nat) :
    onShowPopup s ⟨c, true⟩ =
      if c = 0 then ({ s with lastChampion := 0 }, none)
      else (⟨c, true, true⟩, some c) := by
  by_cases h : c = 0
  · rw [if_pos h]
    show (if c = 0 ∨ 0 = c then _ else _) = _
    rw [if_pos (Or.inl h)]
    rfl
  · rw [if_neg h]
    have h2 : ¬(c = 0 ∨ 0 = c) := by omega
    show (if c = 0 ∨ 0 = c then _ else _) = _
    rw [if_neg h2]

lemma onShowPopup_same (s : WatcherState) (c : Nat) (h : s.lastChampion = c) :
    onShowPopup s ⟨c, false⟩ = (s, none) := by
  cases s with
  | mk last pw pv =>
    simp only [WatcherState.lastChampion] at h
    subst h
    simp [onShowPopup_eq]

lemma runWatcher_cons (s : WatcherState) (i : LcuInput) (rest : List LcuInput) :
    runWatcher s (i :: rest) =
      ((runWatcher (stepWatcher s i).1 rest).1,
        (stepWatcher s i).2.toList ++ (runWatcher (stepWatcher s i).1 rest).2) :=
  rfl

lemma runWatcher_replicate_same (s : WatcherState) (c : Nat)
    (h : s.lastChampion = c) :
    ∀ n : Nat,
      (runWatcher s (List.replicate n (.champSelect ⟨c, false⟩))).2 = [] := by
  intro n
  induction n with
  | zero => rfl
  | succ n ih =>
    rw [List.replicate_succ, runWatcher_cons]
    simp only [stepWatcher, onShowPopup_same s c h]
    simp [ih]

lemma filter_terminal_applied (l : List BuildTask) :
    (l.map fun t => ProgressMsg.appliedBuild t.champion t.position).filter
        isTerminalMsg = [] := by
  induction l with
  | nil => rfl
  | cons t l ih => simp [isTerminalMsg, ih]

/-- C1: repeated identical championId signals are deduplicated.  Once
`lastChampion = c`, any number of further `champSelect(c)` signals without
`noCache` emit nothing; an emission of `c` records `lastChampion = c`; and
the concrete signal sequence 103, 103, 157 from the startup state emits
exactly [103, 157], in that order. -/
theorem champSelect_dedup_exactly_once :
    (∀ (s : WatcherState) (c n : Nat), s.lastChampion = c →
      (runWatcher s (List.replicate n (.champSelect ⟨c, false⟩))).2 = []) ∧
    (∀ (s : WatcherState) (c : Nat),
      (onShowPopup s ⟨c, false⟩).2 = some c →
      (onShowPopup s ⟨c, false⟩).1.lastChampion = c) ∧
    (runWatcher initWatcherState
        [.champSelect ⟨103, false⟩, .champSelect ⟨103, false⟩,
         .champSelect ⟨157, false⟩]).2 = [103, 157] := by
  refine ⟨fun s c n h => runWatcher_replicate_same s c h n, ?_, by decide⟩
  intro s c hem
  rw [onShowPopup_false_noCache] at hem ⊢
  by_cases h : c = 0 ∨ s.lastChampion = c
  · rw [if_pos h] at hem
    exact absurd hem (by simp)
  · rw [if_neg h]

/-- C1 witness: from a state that already signaled champion 103, two more
103 signals emit nothing. -/
theorem champSelect_dedup_exactly_once_witness :
    (runWatcher ⟨103, true, false⟩
      (List.replicate 2 (.champSelect ⟨103, false⟩))).2 = [] :=
  champSelect_dedup_exactly_once.1 ⟨103, true, false⟩ 103 2 rfl

/-- C3 counterexample: when the popup window is absent (`popupWindow` null),
the `MatchedStartedOrTerminated` listener leaves the dedup memory untouched,
so the same championId is not re-emitted afterwards — refuting the claim
that the reset happens regardless of prior state. -/
theorem matchEnd_reset_cex :
    (onMatchedStartedOrTerminated ⟨103, false, false⟩).lastChampion = 103 ∧
    (onShowPopup (onMatchedStartedOrTerminated ⟨103, false, false⟩)
        ⟨103, false⟩).2 = none := by decide

/-- C3 (amended): the `MatchedStartedOrTerminated` transition resets the
champion-dedup memory to 0 — after which the previously signaled championId
is emitted again — but only when the popup window exists; when it does not,
the state (dedup memory included) is left unchanged. -/
theorem matchEnd_reset_amended :
    ∀ s : WatcherState,
      (s.popupWindow = true →
        (onMatchedStartedOrTerminated s).lastChampion = 0 ∧
        ∀ c : Nat, c ≠ 0 →
          (onShowPopup (onMatchedStartedOrTerminated s) ⟨c, false⟩).2 = some c) ∧
      (s.popupWindow = false → onMatchedStartedOrTerminated s = s) := by
  intro s
  constructor
  · intro hw
    have hm : onMatchedStartedOrTerminated s =
        { s with lastChampion := 0, popupVisible := false } := by
      simp [onMatchedStartedOrTerminated, hw]
    refine ⟨by rw [hm], fun c hc => ?_⟩
    rw [hm, onShowPopup_false_noCache]
    have hcond : ¬(c = 0 ∨ (0 : Nat) = c) := by omega
    rw [if_neg hcond]
  · intro hw
    simp [onMatchedStartedOrTerminated, hw]

/-- C3 witness: with the popup window present, the reset fires and champion
103 is re-emitted after the match-end transition. -/
theorem matchEnd_reset_amended_witness :
    (onMatchedStartedOrTerminated ⟨103, true, true⟩).lastChampion = 0 ∧
    (onShowPopup (onMatchedStartedOrTerminated ⟨103, true, true⟩)
        ⟨103, false⟩).2 = some 103 :=
  ⟨((matchEnd_reset_amended ⟨103, true, true⟩).1 rfl).1,
   ((matchEnd_reset_amended ⟨103, true, true⟩).1 rfl).2 103 (by decide)⟩

/-- C9: while a rune-page apply call is pending, a further call is rejected
immediately with `busy` and the pending call is left untouched; when no call
is pending, the call is accepted and becomes the unique pending call. -/
theorem applyRunePage_single_in_flight :
    (∀ r req : Nat, applyRunePage ⟨some r⟩ req = (⟨some r⟩, .busy)) ∧
    (∀ req : Nat, applyRunePage ⟨none⟩ req = (⟨some req⟩, .accepted)) :=
  ⟨fun _ _ => rfl, fun _ => rfl⟩

/-- C10: a falsy (absent or zero) championId emits nothing and leaves the
dedup memory unchanged, except that `noCache` resets it to 0 first; after a
falsy payload carrying `noCache`, any non-zero championId is emitted, even
if it equals the previously recorded one. -/
theorem falsy_champion_no_emit :
    ∀ (s : WatcherState) (d : IPopupEventData), d.championId = 0 →
      (onShowPopup s d =
        ({ s with lastChampion := if d.noCache then 0 else s.lastChampion },
          none)) ∧
      (d.noCache = true → ∀ c : Nat, c ≠ 0 →
        (onShowPopup (onShowPopup s d).1 ⟨c, false⟩).2 = some c) := by
  intro s d h0
  have hfst : onShowPopup s d =
      ({ s with lastChampion := if d.noCache then 0 else s.lastChampion },
        none) := by
    rw [onShowPopup_eq, if_pos (Or.inl h0)]
  refine ⟨hfst, fun hnc c hc => ?_⟩
  have hstate : (onShowPopup s d).1 = { s with lastChampion := 0 } := by
    rw [hfst, hnc]
    simp
  rw [hstate, onShowPopup_false_noCache]
  have hcond : ¬(c = 0 ∨
      ({ s with lastChampion := 0 } : WatcherState).lastChampion = c) := by
    simp only [not_or]
    refine ⟨hc, fun h => hc ?_⟩
    simpa using h.symm
  rw [if_neg hcond]

/-- C10 witness: a falsy payload with `noCache` from a state that last
signaled 103 emits nothing, resets the memory, and 103 then re-emits. -/
theorem falsy_champion_no_emit_witness :
    (onShowPopup ⟨103, true, false⟩ ⟨0, true⟩ =
      (⟨0, true, false⟩, none)) ∧
    (onShowPopup (onShowPopup ⟨103, true, false⟩ ⟨0, true⟩).1
        ⟨103, false⟩).2 = some 103 :=
  ⟨(falsy_champion_no_emit ⟨103, true, false⟩ ⟨0, true⟩ rfl).1,
   (falsy_champion_no_emit ⟨103, true, false⟩ ⟨0, true⟩ rfl).2 rfl 103
     (by decide)⟩

/-- C2 counterexample: with both writes failing, every WriteResult of the run
is `failed`, yet the run's progress messages end in the plain success
terminal `finished` (main.ts:408-412 sends `finished: true` unconditionally
after the write fan-out) — refuting the claimed `Finished{ok:false}`
report for an all-failed run. -/
theorem finished_ok_false_cex :
    runWrites envAllWritesFail (tasksOfRun "op" envAllWritesFail.files) =
      [.failed, .failed] ∧
    (prepareSourceData "op" envAllWritesFail).1 =
      [.fetchedMetadata, .downloadingTarball, .downloadedTarball,
       .extractedData, .finished] := by decide

/-- C2 (amended): whenever every stage before writing succeeds, the run ends
with the success terminal `finished` regardless of the write outcomes, and
individual write failures never abort the run (one WriteResult per task is
still produced). -/
theorem finished_regardless_of_write_failures :
    ∀ (source : String) (env : RunEnv),
      env.metadataOk = true → env.downloadOk = true →
      env.ensureDirOk = true → env.scanOk = true →
      (prepareSourceData source env).1.getLast? = some .finished ∧
      (runWrites env (tasksOfRun source env.files)).length =
        (tasksOfRun source env.files).length := by
  intro source env h1 h2 h3 h4
  constructor
  · simp only [prepareSourceData, h1, h2, h3, h4, Bool.true_eq_false,
      if_false]
    rw [List.getLast?_concat]
  · simp [runWrites]

/-- C2 witness: a fully successful run over the sample source ends in
`finished` and yields one WriteResult per task. -/
theorem finished_regardless_of_write_failures_witness :
    (prepareSourceData "op" sampleEnv).1.getLast? = some .finished ∧
    (runWrites sampleEnv (tasksOfRun "op" sampleEnv.files)).length =
      (tasksOfRun "op" sampleEnv.files).length :=
  finished_regardless_of_write_failures "op" sampleEnv rfl rfl rfl rfl

/-- C4 counterexample: two distinct (championAlias, position, index) tuples
can yield equal file names when the " - " separator migrates between the
position segment and the alias: (alias "Ahri", position "top", index 0) and
(alias "top - Ahri", no position, index 0) both produce "[OP] top - Ahri-1". -/
theorem fileName_injectivity_cex :
    fileName "op" (some "top") "Ahri" 0 = fileName "op" none "top - Ahri" 0 ∧
    ¬("Ahri" = "top - Ahri" ∧ (some "top" : Option String) = none) := by
  decide

/-- C4 (amended): for tuples sharing the same position, distinct
(championAlias, index) pairs always yield distinct composed file names; and
re-applying a run's writes to the filesystem is idempotent — the same paths
end up with the same bytes. -/
theorem fileName_unique_and_idempotent :
    (∀ (source : String) (pos : Option String) (a1 a2 : String) (i1 i2 : Nat),
      fileName source pos a1 i1 = fileName source pos a2 i2 →
      a1 = a2 ∧ i1 = i2) ∧
    (∀ (fs : String → Option String) (source : String) (env : RunEnv),
      applyWrites (applyWrites fs (prepareSourceData source env).2)
          (prepareSourceData source env).2 =
        applyWrites fs (prepareSourceData source env).2) :=
  ⟨fun _ _ _ _ _ _ h => fileName_inj_same_pos h,
   fun fs _ _ => applyWrites_idem fs _⟩

/-- C4 witness: instantiating the injectivity direction at equal inputs. -/
theorem fileName_unique_and_idempotent_witness :
    ("Ahri" : String) = "Ahri" ∧ (0 : Nat) = 0 :=
  fileName_unique_and_idempotent.1 "op" none "Ahri" "Ahri" 0 0 rfl

/-- C5: the file name is the upper-cased source name in square brackets, an
optional "position - " prefix (omitted when the position is absent), the
champion alias, a hyphen, and the 1-based index; for source "op", champion
"Ahri", no position and two item builds the names are "[OP] Ahri-1" and
"[OP] Ahri-2". -/
theorem fileName_composition :
    (∀ (source champion : String) (idx : Nat),
      fileName source none champion idx =
        "[" ++ toUpperCase source ++ "] " ++ champion ++ "-"
          ++ toString (idx + 1)) ∧
    (∀ (source pos champion : String) (idx : Nat),
      fileName source (some pos) champion idx =
        "[" ++ toUpperCase source ++ "] " ++ pos ++ " - " ++ champion ++ "-"
          ++ toString (idx + 1)) ∧
    (tasksOfChampFile "op" sampleChampFile).map BuildTask.fileName =
      ["[OP] Ahri-1", "[OP] Ahri-2"] := by
  refine ⟨fun source champion idx => ?_, fun source pos champion idx => ?_,
    by decide⟩
  · simp [fileName, pStr]
  · simp [fileName, pStr, String.append_assoc]

/-- C6: a champion file with N item builds yields exactly N write tasks and
exactly N WriteResults, and every task's file name is the documented pattern
at some index below N. -/
theorem writeResults_per_itemBuild :
    ∀ (source : String) (i : ChampFile) (env : RunEnv),
      (tasksOfChampFile source i).length = i.itemBuilds.length ∧
      (runWrites env (tasksOfChampFile source i)).length =
        i.itemBuilds.length ∧
      ∀ t ∈ tasksOfChampFile source i, ∃ idx, idx < i.itemBuilds.length ∧
        t.fileName = fileName source i.position i.champAlias idx := by
  intro source i env
  refine ⟨by simp [tasksOfChampFile], by simp [runWrites, tasksOfChampFile],
    ?_⟩
  intro t ht
  simp only [tasksOfChampFile, List.mem_map] at ht
  obtain ⟨p, hp, hpt⟩ := ht
  subst hpt
  exact ⟨p.1, (List.mem_enum hp).1, rfl⟩

/-- C6 witness: the sample champion file with two item builds yields two
tasks, two WriteResults, and its first task's file name fits the pattern. -/
theorem writeResults_per_itemBuild_witness :
    (tasksOfChampFile "op" sampleChampFile).length =
      sampleChampFile.itemBuilds.length ∧
    ∃ idx, idx < sampleChampFile.itemBuilds.length ∧
      (⟨"Ahri", none, fileName "op" none "Ahri" 0, "b1"⟩ : BuildTask).fileName =
        fileName "op" sampleChampFile.position sampleChampFile.champAlias idx :=
  ⟨(writeResults_per_itemBuild "op" sampleChampFile sampleEnv).1,
   (writeResults_per_itemBuild "op" sampleChampFile sampleEnv).2.2 _
     (by decide)⟩

/-- C7 counterexample: an extraction failure does not abort the run.  In
`envTarFail` the tar unpacking fails (`tarOk = false`, the un-awaited,
unhandled pipe of main.ts:361-366) while every awaited step succeeds; the
run nevertheless emits the full success message sequence with no error
message, ends in `finished`, and still writes build files from the stale
directory contents — refuting the claim that any pre-write stage failure
aborts the run with an error message and no writes. -/
theorem extraction_failure_no_abort_cex :
    envTarFail.tarOk = false ∧
    (prepareSourceData "op" envTarFail).1 =
      [.fetchedMetadata, .downloadingTarball, .downloadedTarball,
       .extractedData, .appliedBuild "Ahri" none, .appliedBuild "Ahri" none,
       .finished] ∧
    (prepareSourceData "op" envTarFail).2 ≠ [] := by decide

/-- C7 (amended): a failure of an awaited step before writing (registry
metadata lookup, tarball download, `fse.ensureDir`, directory scan) aborts
the run with exactly one error message, which is the last message, and no
files are written; when the metadata lookup itself fails (HTTP 404) the
error message is the only message of the run.  A failure of the un-awaited
tar extraction, in contrast, changes nothing: the run's messages and writes
are independent of `tarOk`. -/
theorem abort_before_writing :
    ∀ (source : String) (env : RunEnv),
      ((env.metadataOk && env.downloadOk && env.ensureDirOk && env.scanOk)
          = false →
        ((prepareSourceData source env).1.filter isTerminalMsg =
            [.somethingWentWrong] ∧
          (prepareSourceData source env).1.getLast? =
            some .somethingWentWrong ∧
          (prepareSourceData source env).2 = []) ∧
        (env.metadataOk = false →
          (prepareSourceData source env).1 = [.somethingWentWrong])) ∧
      (∀ b : Bool,
        prepareSourceData source { env with tarOk := b } =
          prepareSourceData source env) := by
  intro source env
  constructor
  · intro h
    cases hm : env.metadataOk <;> cases hd : env.downloadOk <;>
      cases he : env.ensureDirOk <;> cases hs : env.scanOk <;>
        simp_all [prepareSourceData, isTerminalMsg]
  · intro b
    rfl

/-- C7 witness: the metadata-404 run emits exactly the single error
message and writes nothing. -/
theorem abort_before_writing_witness :
    (prepareSourceData "op" envMetadata404).1 = [.somethingWentWrong] ∧
    (prepareSourceData "op" envMetadata404).2 = [] :=
  ⟨((abort_before_writing "op" envMetadata404).1 rfl).2 rfl,
   ((abort_before_writing "op" envMetadata404).1 rfl).1.2.2⟩

/-- C8: every run, whatever the stage and write outcomes, produces exactly
one terminal progress message (`finished` or the error message), and that
terminal message is the last message of the run. -/
theorem ingestion_terminal_message :
    ∀ (source : String) (env : RunEnv),
      ((prepareSourceData source env).1.filter isTerminalMsg).length = 1 ∧
      ∃ m, (prepareSourceData source env).1.getLast? = some m ∧
        isTerminalMsg m = true := by
  intro source env
  cases hm : env.metadataOk <;> cases hd : env.downloadOk <;>
    cases he : env.ensureDirOk <;> cases hs : env.scanOk <;>
      simp_all [prepareSourceData, isTerminalMsg, filter_terminal_applied,
        List.getLast?_concat]
  exact ⟨.finished, by rw [← List.cons_append, List.getLast?_concat], rfl⟩
